import Mathlib

/-!
Verification development for the `microscope2ome` batch-conversion scripts
(`img2ome.py` and `qupath_img2ome.py`).

The scripts orchestrate external conversion tools over a filesystem.  We model:

* paths as lists of components (`FPath`),
* the filesystem as the set of existing files and directories (`FS`),
* the outside world (outcomes of `subprocess.run` and `os.remove`) as an
  explicit environment (`Env`); a subprocess invocation receives the command
  line and the current filesystem and yields an outcome together with the
  filesystem it leaves behind,
* Python exceptions that may escape a function as `Except` errors
  (`subprocess.run(..., check=True)` raises `CalledProcessError` on a nonzero
  or signal exit status, which the scripts catch, and `FileNotFoundError`
  when the executable cannot be launched, which they do not catch).

Each Python function of the source is translated into a Lean function over
this model, and the claims are settled as theorems about those functions.
-/

/-- A filesystem path (Python path string), as its list of components. -/
abbrev FPath := List String

/-- The filesystem state: the set of existing regular files and the set of
existing directories (each as a list of full paths). -/
structure FS where
  files : List FPath
  dirs : List FPath
deriving DecidableEq, Repr

/-- `os.path.exists`: the path is an existing file or directory. -/
def FS.pathExists (fs : FS) (p : FPath) : Bool :=
  fs.files.contains p || fs.dirs.contains p

/-- `os.remove` (the state change of a successful removal): the file is gone. -/
def FS.removeFile (fs : FS) (p : FPath) : FS :=
  { fs with files := fs.files.filter (fun q => !(q = p : Bool)) }

/-- `shutil.rmtree`: the directory and everything beneath it is gone. -/
def FS.rmtree (fs : FS) (p : FPath) : FS :=
  { files := fs.files.filter (fun q => !(p.isPrefixOf q))
    dirs := fs.dirs.filter (fun q => !(p.isPrefixOf q)) }

/-- `os.makedirs(p, exist_ok=True)`: create the directory if absent. -/
def FS.mkdirs (fs : FS) (p : FPath) : FS :=
  if fs.dirs.contains p then fs else { fs with dirs := fs.dirs ++ [p] }

/-- The last component of a path (its basename); `""` for the empty path. -/
def lastComp (p : FPath) : String :=
  (p.getLast?).getD ""

/-- Render a path the way the scripts pass it to a subprocess. -/
def pathStr (p : FPath) : String :=
  String.intercalate "/" p

/-- `os.path.splitext` on a single path component: split off the extension at
the last dot, except that a name whose characters before its last dot are all
dots (for example `.bashrc`) has no extension. -/
def splitext (s : String) : String × String :=
  let r := s.data.reverse
  let extRev := r.takeWhile (fun c => !(c = '.' : Bool))
  match r.dropWhile (fun c => !(c = '.' : Bool)) with
  | [] => (s, "")
  | _ :: before =>
    if before.any (fun c => !(c = '.' : Bool)) then
      (String.mk before.reverse, String.mk ('.' :: extRev.reverse))
    else
      (s, "")

/-- `str.lower()`: each character lower-cased (`String.toLower`, written
over the character list so that it evaluates inside the kernel). -/
def strToLower (s : String) : String :=
  String.mk (s.data.map Char.toLower)

/-- `str.endswith(suffix)` (and the glob pattern `*<suffix>`): the
character-list suffix test. -/
def strEndsWith (s suf : String) : Bool :=
  suf.data.isSuffixOf s.data

/-- The hardcoded extension list of `find_images` in `img2ome.py`. -/
def image_extensions : List String :=
  [".tif", ".tiff", ".jpg", ".jpeg", ".png", ".nd2", ".czi", ".lif", ".mrxs", ".svs"]

/-- The per-file test applied by `find_images`: the extension, lower-cased,
is one of the recognized image extensions. -/
def isImageFile (name : String) : Bool :=
  image_extensions.contains (strToLower (splitext name).2)

/-- A directory tree entry: a regular file or a directory with children. -/
inductive FsTree where
  | file (name : String)
  | dir (name : String) (children : List FsTree)
deriving Repr

/-- What the input path points at: a regular file, or a directory whose
children are the given trees. -/
inductive Node where
  | file
  | dir (children : List FsTree)

/-- The names of the regular-file children of a directory (the `files` list
`os.walk` reports for that directory). -/
def fileNames (ts : List FsTree) : List String :=
  ts.filterMap fun t =>
    match t with
    | FsTree.file n => some n
    | FsTree.dir _ _ => none

/-- The recursive part of the `os.walk` loop in `find_images`: for every
directory child, first its matching files, then the walk of its own
subdirectories. -/
def walkChildren (pre : FPath) : List FsTree → List FPath
  | [] => []
  | FsTree.file _ :: rest => walkChildren pre rest
  | FsTree.dir n cs :: rest =>
      (((fileNames cs).filter isImageFile).map fun m => pre ++ [n] ++ [m])
        ++ walkChildren (pre ++ [n]) cs
        ++ walkChildren pre rest

/-- `find_images` of `img2ome.py`: a single file is returned iff its extension
is recognized; a directory is walked recursively, each visited directory
contributing its matching files. -/
def find_images (p : FPath) : Node → List FPath
  | Node.file => if isImageFile (lastComp p) then [p] else []
  | Node.dir cs =>
      (((fileNames cs).filter isImageFile).map fun m => p ++ [m]) ++ walkChildren p cs

/-- All regular files anywhere beneath a directory with the given children,
as paths relative to that directory.  This is the specification-side notion
of "the files anywhere beneath the root". -/
def filesUnder : List FsTree → List FPath
  | [] => []
  | FsTree.file m :: rest => [m] :: filesUnder rest
  | FsTree.dir n cs :: rest => (filesUnder cs).map (fun r => n :: r) ++ filesUnder rest

/-- Outcome of one `subprocess.run(cmd, check=True)` call: exit status zero,
a nonzero or signal exit status (`CalledProcessError`, with the negative code
standing for a signal), or failure to launch (`FileNotFoundError`). -/
inductive RunOutcome where
  | exitZero
  | exitNonZero (code : Int)
  | execNotFound
deriving DecidableEq, Repr

/-- A Python exception escaping a modelled function. -/
inductive PyExn where
  | fileNotFoundError (cmd : List String)
deriving DecidableEq, Repr

/-- The outside world: whether `os.remove` succeeds on a given path, and what
one subprocess invocation does — its outcome plus the filesystem it leaves
behind (the external tools are black boxes free to modify the filesystem). -/
structure Env where
  removeOk : FPath → Bool
  run : List String → FS → RunOutcome × FS

/-- Intermediate-artifact path computed by `convert_image` of `img2ome.py`:
`output_dir/<stem>.zarr`. -/
def zarrPathOf (output_dir image_path : FPath) : FPath :=
  output_dir ++ [(splitext (lastComp image_path)).1 ++ ".zarr"]

/-- Final-artifact path computed by `convert_image` of `img2ome.py`:
`output_dir/<stem>.ome.tiff`. -/
def ometiffPathOf (output_dir image_path : FPath) : FPath :=
  output_dir ++ [(splitext (lastComp image_path)).1 ++ ".ome.tiff"]

/-- The `bioformats2raw` command line built by `convert_image`. -/
def bf2rawCmd (bf2raw_args : List String) (image_path zarr_dir : FPath) : List String :=
  ["bioformats2raw"] ++ bf2raw_args ++ [pathStr image_path, pathStr zarr_dir]

/-- The `raw2ometiff` command line built by `convert_image`. -/
def raw2ometiffCmd (raw2ometiff_args : List String) (zarr_dir ometiff_path : FPath) :
    List String :=
  ["raw2ometiff"] ++ raw2ometiff_args ++ [pathStr zarr_dir, pathStr ometiff_path]

/-- The stage-running tail of `convert_image` in `img2ome.py`: run
`bioformats2raw`, then `raw2ometiff`, each in a `try` that catches only
`CalledProcessError` and returns `False`; on success of both, remove the zarr
directory when it exists and `keep_zarr` is false, and return `True`.
A `FileNotFoundError` from either launch is not caught and escapes. -/
def runPipeline (env : Env) (image_path zarr_dir ometiff_path : FPath)
    (bf2raw_args raw2ometiff_args : List String) (keep_zarr : Bool) (fs : FS) :
    Except PyExn (Bool × FS) :=
  let cmd1 := bf2rawCmd bf2raw_args image_path zarr_dir
  match env.run cmd1 fs with
  | (RunOutcome.execNotFound, _) => Except.error (PyExn.fileNotFoundError cmd1)
  | (RunOutcome.exitNonZero _, fs1) => Except.ok (false, fs1)
  | (RunOutcome.exitZero, fs1) =>
    let cmd2 := raw2ometiffCmd raw2ometiff_args zarr_dir ometiff_path
    match env.run cmd2 fs1 with
    | (RunOutcome.execNotFound, _) => Except.error (PyExn.fileNotFoundError cmd2)
    | (RunOutcome.exitNonZero _, fs2) => Except.ok (false, fs2)
    | (RunOutcome.exitZero, fs2) =>
      let fs3 := if !keep_zarr && fs2.pathExists zarr_dir then fs2.rmtree zarr_dir else fs2
      Except.ok (true, fs3)

/-- `convert_image` of `img2ome.py`.  If the final OME-TIFF already exists:
with `overwrite` it is removed first (an `OSError` from `os.remove` is caught
and yields `False`), without `overwrite` the item is skipped with `True`.
Otherwise the two-stage pipeline runs. -/
def convert_image (env : Env) (image_path output_dir : FPath)
    (bf2raw_args raw2ometiff_args : List String) (keep_zarr overwrite : Bool) (fs : FS) :
    Except PyExn (Bool × FS) :=
  let zarr_dir := zarrPathOf output_dir image_path
  let ometiff_path := ometiffPathOf output_dir image_path
  if fs.pathExists ometiff_path then
    if overwrite then
      if env.removeOk ometiff_path then
        runPipeline env image_path zarr_dir ometiff_path bf2raw_args raw2ometiff_args
          keep_zarr (fs.removeFile ometiff_path)
      else Except.ok (false, fs)
    else Except.ok (true, fs)
  else
    runPipeline env image_path zarr_dir ometiff_path bf2raw_args raw2ometiff_args keep_zarr fs

/-- `os.path.relpath(p, base)` for the uses in `main`, where `base` is always
a path of which `p` is an extension: the remaining components. -/
def relpath (p base : FPath) : FPath :=
  p.drop base.length

/-- One iteration of the conversion loop in `main` of `img2ome.py`: compute
the relative path, the output subdirectory, create it, and convert. -/
def processItem (env : Env) (output_dir input_dir image_path : FPath)
    (bf2raw_args raw2ometiff_args : List String) (keep_zarr overwrite : Bool) (fs : FS) :
    Except PyExn (Bool × FS) :=
  let rel := relpath image_path input_dir
  let output_subdir := output_dir ++ rel.dropLast
  let fs1 := fs.mkdirs output_subdir
  convert_image env image_path output_subdir bf2raw_args raw2ometiff_args
    keep_zarr overwrite fs1

/-- The conversion loop of `main` in `img2ome.py`, returning the per-item
results in order (`main` counts the `True`s). -/
def runBatch (env : Env) (output_dir input_dir : FPath)
    (bf2raw_args raw2ometiff_args : List String) (keep_zarr overwrite : Bool) :
    List FPath → FS → Except PyExn (List Bool × FS)
  | [], fs => Except.ok ([], fs)
  | image_path :: rest, fs =>
    match processItem env output_dir input_dir image_path
        bf2raw_args raw2ometiff_args keep_zarr overwrite fs with
    | Except.error e => Except.error e
    | Except.ok (b, fs') =>
      match runBatch env output_dir input_dir
          bf2raw_args raw2ometiff_args keep_zarr overwrite rest fs' with
      | Except.error e => Except.error e
      | Except.ok (bs, fs'') => Except.ok (b :: bs, fs'')

/-- The parsed command-line options of `img2ome.py` (`parse_args`).  `Option`
fields default to `None`; `ometiff_compression` has argparse default `LZW`. -/
structure Img2omeArgs where
  progress : Bool
  tile_width : Option Int
  tile_height : Option Int
  resolutions : Option Int
  compression : Option String
  max_workers : Option Int
  series : Option String
  no_minmax : Bool
  memo_directory : Option String
  downsample_type : Option String
  overwrite : Bool
  debug : Bool
  ometiff_compression : String
  ometiff_quality : Option Int
  rgb : Bool
  split : Bool
  split_planes : Bool
  keep_zarr : Bool
deriving Repr

/-- `if args.x: args_list.extend([flag, str(args.x)])` for an integer option:
Python treats both `None` and `0` as falsy. -/
def intArg (flag : String) (v : Option Int) : List String :=
  match v with
  | some n => if n ≠ 0 then [flag, toString n] else []
  | none => []

/-- `if args.x: args_list.extend([flag, args.x])` for a string option:
Python treats both `None` and `""` as falsy. -/
def strArg (flag : String) (v : Option String) : List String :=
  match v with
  | some s => if s ≠ "" then [flag, s] else []
  | none => []

/-- The `bf2raw_args` list built in `main` of `img2ome.py`. -/
def build_bf2raw_args (a : Img2omeArgs) : List String :=
  (if a.progress then ["-p"] else [])
    ++ intArg "--tile-width" a.tile_width
    ++ intArg "--tile-height" a.tile_height
    ++ intArg "--resolutions" a.resolutions
    ++ strArg "--compression" a.compression
    ++ intArg "--max-workers" a.max_workers
    ++ strArg "--series" a.series
    ++ (if a.no_minmax then ["--no-minmax"] else [])
    ++ strArg "--memo-directory" a.memo_directory
    ++ strArg "--downsample-type" a.downsample_type
    ++ (if a.overwrite then ["--overwrite"] else [])
    ++ (if a.debug then ["--log-level", "DEBUG"] else [])

/-- The `raw2ometiff_args` list built in `main` of `img2ome.py`;
`--compression` is always passed (argparse default `LZW`). -/
def build_raw2ometiff_args (a : Img2omeArgs) : List String :=
  (if a.progress then ["-p"] else [])
    ++ ["--compression", a.ometiff_compression]
    ++ intArg "--quality" a.ometiff_quality
    ++ (if a.rgb then ["--rgb"] else [])
    ++ (if a.split then ["--split"] else [])
    ++ (if a.split_planes then ["--split-planes"] else [])
    ++ (if a.debug then ["--log-level", "DEBUG"] else [])

/-- `input_dir` as computed in `main` of `img2ome.py`: the containing
directory when the input path is a file, the input path itself otherwise. -/
def inputDirOf (p : FPath) : Node → FPath
  | Node.file => p.dropLast
  | Node.dir _ => p

/-- `main` of `img2ome.py`, from after argument parsing to process exit,
returning the exit code and the final filesystem.  It creates the output
directory, discovers images, exits `1` when none were found, otherwise runs
the conversion loop and exits `1` iff fewer items succeeded than were found. -/
def img2ome_main (env : Env) (input_path : FPath) (node : Node) (output_dir : FPath)
    (a : Img2omeArgs) (fs : FS) : Except PyExn (Nat × FS) :=
  let fs1 := fs.mkdirs output_dir
  let input_dir := inputDirOf input_path node
  let image_paths := find_images input_path node
  if image_paths.isEmpty then Except.ok (1, fs1)
  else
    match runBatch env output_dir input_dir
        (build_bf2raw_args a) (build_raw2ometiff_args a) a.keep_zarr a.overwrite
        image_paths fs1 with
    | Except.error e => Except.error e
    | Except.ok (results, fs') =>
      Except.ok (if results.count true < image_paths.length then 1 else 0, fs')

/-- The keyword options of `convert_image` in `qupath_img2ome.py` (numeric
floats modelled as rationals). -/
structure QOpts where
  crop : Option String
  zslices : Option String
  timepoints : Option String
  downsample : Rat
  pyramid_scale : Rat
  big_tiff : Option Bool
  tile_size : Option Int
  tile_width : Int
  tile_height : Int
  compression : Option String
  parallelize : Bool
  overwrite : Bool
  series : Option Int
deriving Repr

/-- The argparse defaults of `qupath_img2ome.py` for those options. -/
def qoptsDefault : QOpts :=
  { crop := none, zslices := none, timepoints := none, downsample := 1,
    pyramid_scale := 1, big_tiff := none, tile_size := none, tile_width := 512,
    tile_height := 512, compression := none, parallelize := true,
    overwrite := false, series := none }

/-- The `QuPath convert-ome` command line built by `convert_image` of
`qupath_img2ome.py`. -/
def qupathCmd (opts : QOpts) (input output : String) : List String :=
  ["QuPath", "convert-ome"]
    ++ strArg "-r" opts.crop
    ++ strArg "-z" opts.zslices
    ++ strArg "-t" opts.timepoints
    ++ (if opts.downsample ≠ 1 then ["-d", toString opts.downsample] else [])
    ++ (if opts.pyramid_scale > 1 then ["-y", toString opts.pyramid_scale] else [])
    ++ (match opts.big_tiff with
        | some b => [if b then "--big-tiff" else "--big-tiff=false"]
        | none => [])
    ++ (match opts.tile_size with
        | some n => ["--tile-size", toString n]
        | none => [])
    ++ (if opts.tile_width ≠ 512 then ["--tile-width", toString opts.tile_width] else [])
    ++ (if opts.tile_height ≠ 512 then ["--tile-height", toString opts.tile_height] else [])
    ++ strArg "-c" opts.compression
    ++ (if !opts.parallelize then ["--no-parallelize"] else [])
    ++ (if opts.overwrite then ["--overwrite"] else [])
    ++ (match opts.series with
        | some n => ["--series", toString n]
        | none => [])
    ++ [input, output]

/-- `convert_image` of `qupath_img2ome.py`: one subprocess call in a `try`
that catches only `CalledProcessError` (returning `False`); exit zero returns
`True`; a `FileNotFoundError` escapes. -/
def qupath_convert_image (env : Env) (input output : String) (opts : QOpts) (fs : FS) :
    Except PyExn (Bool × FS) :=
  let cmd := qupathCmd opts input output
  match env.run cmd fs with
  | (RunOutcome.execNotFound, _) => Except.error (PyExn.fileNotFoundError cmd)
  | (RunOutcome.exitNonZero _, fs') => Except.ok (false, fs')
  | (RunOutcome.exitZero, fs') => Except.ok (true, fs')

/-- The names of all immediate children of a directory (both files and
subdirectories), as `pathlib.Path.glob` sees them. -/
def childNames (ts : List FsTree) : List String :=
  ts.map fun t =>
    match t with
    | FsTree.file n => n
    | FsTree.dir n _ => n

/-- The file-collection loop of `process_directory` in `qupath_img2ome.py`:
for each configured extension, `input_path.glob("*" + ext)` — the immediate
children whose name ends with the extension string (a case-sensitive match,
with no recursion into subdirectories). -/
def qupathGlobFiles (input_dir : FPath) (extensions : List String) (ts : List FsTree) :
    List FPath :=
  extensions.flatMap fun ext =>
    ((childNames ts).filter fun n => strEndsWith n ext).map fun n => input_dir ++ [n]

/-- The argparse default of `--extensions` in `qupath_img2ome.py`. -/
def qupath_default_extensions : List String :=
  [".tif", ".tiff", ".svs", ".ndpi", ".jpg", ".jpeg", ".png", ".czi"]

/-- The per-file loop of `process_directory` in `qupath_img2ome.py`,
returning the number of successes and the final filesystem. -/
def qupathLoop (env : Env) (output_dir : FPath) (output_format : String) (opts : QOpts) :
    List FPath → FS → Except PyExn (Nat × FS)
  | [], fs => Except.ok (0, fs)
  | f :: rest, fs =>
    let output_file :=
      if output_format == "tiff" then
        output_dir ++ [(splitext (lastComp f)).1 ++ ".ome.tiff"]
      else
        output_dir ++ [(splitext (lastComp f)).1 ++ ".ome.zarr"]
    match qupath_convert_image env (pathStr f) (pathStr output_file) opts fs with
    | Except.error e => Except.error e
    | Except.ok (b, fs') =>
      match qupathLoop env output_dir output_format opts rest fs' with
      | Except.error e => Except.error e
      | Except.ok (n, fs'') => Except.ok ((if b then 1 else 0) + n, fs'')

/-- `process_directory` of `qupath_img2ome.py`: create the output directory,
glob for matching files, print-and-return when none match, else convert each
and print the success count.  It returns `None` in Python; we return the
success count and total as the observable summary. -/
def qupath_process_directory (env : Env) (input_dir : FPath) (ts : List FsTree)
    (output_dir : FPath) (output_format : String) (extensions : List String)
    (opts : QOpts) (fs : FS) : Except PyExn (Nat × Nat × FS) :=
  let fs1 := fs.mkdirs output_dir
  let files := qupathGlobFiles input_dir extensions ts
  if files.isEmpty then Except.ok (0, 0, fs1)
  else
    match qupathLoop env output_dir output_format opts files fs1 with
    | Except.error e => Except.error e
    | Except.ok (n, fs') => Except.ok (n, files.length, fs')

/-- `main` of `qupath_img2ome.py` on a directory input: it calls
`process_directory`, ignores its result, and falls off the end of `main`, so
the process exit code is `0` whatever the per-item outcomes were. -/
def qupath_main_dir (env : Env) (input_dir : FPath) (ts : List FsTree)
    (output_dir : FPath) (output_format : String) (extensions : List String)
    (opts : QOpts) (fs : FS) : Except PyExn (Nat × FS) :=
  match qupath_process_directory env input_dir ts output_dir
      output_format extensions opts fs with
  | Except.error e => Except.error e
  | Except.ok (_, _, fs') => Except.ok (0, fs')

/-- `img2ome.py` options with every argparse default. -/
def argsDefault : Img2omeArgs :=
  { progress := false, tile_width := none, tile_height := none, resolutions := none,
    compression := none, max_workers := none, series := none, no_minmax := false,
    memo_directory := none, downsample_type := none, overwrite := false, debug := false,
    ometiff_compression := "LZW", ometiff_quality := none, rgb := false, split := false,
    split_planes := false, keep_zarr := false }

/-- An environment in which every tool invocation exits with status 1 and
leaves the filesystem unchanged. -/
def envAllFail : Env :=
  { removeOk := fun _ => true, run := fun _ fs => (RunOutcome.exitNonZero 1, fs) }

/-- An environment in which every tool invocation is killed by SIGKILL
(`CalledProcessError` with a negative return code). -/
def envSignal : Env :=
  { removeOk := fun _ => true, run := fun _ fs => (RunOutcome.exitNonZero (-9), fs) }

/-- An environment in which no tool executable can be found. -/
def envNotFound : Env :=
  { removeOk := fun _ => true, run := fun _ fs => (RunOutcome.execNotFound, fs) }

/-- An environment in which `os.remove` always fails with an `OSError`. -/
def envNoRemove : Env :=
  { removeOk := fun _ => false, run := fun _ fs => (RunOutcome.exitNonZero 1, fs) }

/-- An environment for the item `img.tif` converted into `out`:
`bioformats2raw` succeeds and creates `out/img.zarr`; `raw2ometiff` fails
with exit status 1, leaving the filesystem as it was. -/
def envStage2Fails : Env :=
  { removeOk := fun _ => true
    run := fun cmd fs =>
      if cmd.head? == some "bioformats2raw" then
        (RunOutcome.exitZero, { fs with dirs := fs.dirs ++ [["out", "img.zarr"]] })
      else (RunOutcome.exitNonZero 1, fs) }

/-- An environment for the item `img.tif` converted into `out`:
`bioformats2raw` succeeds and creates `out/img.zarr`; `raw2ometiff` succeeds
and creates `out/img.ome.tiff`. -/
def envBothStagesOk : Env :=
  { removeOk := fun _ => true
    run := fun cmd fs =>
      if cmd.head? == some "bioformats2raw" then
        (RunOutcome.exitZero, { fs with dirs := fs.dirs ++ [["out", "img.zarr"]] })
      else (RunOutcome.exitZero, { fs with files := fs.files ++ [["out", "img.ome.tiff"]] }) }

/-- An environment whose tool invocations never remove a directory — the
contract a conversion tool is trusted to obey. -/
def EnvKeepsDirs (env : Env) : Prop :=
  ∀ (cmd : List String) (fs : FS) (d : FPath), d ∈ fs.dirs → d ∈ ((env.run cmd fs).2).dirs

/-! ### Basic lemmas about the filesystem model -/

theorem pathExists_rmtree_self (fs : FS) (p : FPath) :
    (fs.rmtree p).pathExists p = false := by
  simp [FS.pathExists, FS.rmtree, List.mem_filter]

theorem isPrefixOf_concat_self (l : FPath) (a : String) :
    (l ++ [a]).isPrefixOf l = false := by
  by_contra h
  rw [Bool.not_eq_false, List.isPrefixOf_iff_prefix] at h
  have hlen := h.length_le
  simp at hlen

theorem mkdirs_mem_dirs (fs : FS) (p : FPath) : p ∈ (fs.mkdirs p).dirs := by
  unfold FS.mkdirs
  by_cases h : p ∈ fs.dirs
  · simp [h]
  · simp [h]

theorem mkdirs_eq_of_contains (fs : FS) (p : FPath) (h : fs.dirs.contains p = true) :
    fs.mkdirs p = fs := by
  simp at h
  simp [FS.mkdirs, h]

theorem pathExists_of_mem_dirs (fs : FS) (p : FPath) (h : p ∈ fs.dirs) :
    fs.pathExists p = true := by
  simp [FS.pathExists]
  exact Or.inr h

/-- The idempotent-skip branch of `convert_image`: when the final OME-TIFF
exists and `overwrite` is false, the result is `True` and the filesystem is
untouched, whatever the environment does (so in particular no stage runs). -/
theorem convert_image_skip (env : Env) (image_path output_dir : FPath)
    (bf2raw_args raw2ometiff_args : List String) (keep_zarr : Bool) (fs : FS)
    (hex : fs.pathExists (ometiffPathOf output_dir image_path) = true) :
    convert_image env image_path output_dir bf2raw_args raw2ometiff_args keep_zarr false fs
      = Except.ok (true, fs) := by
  simp [convert_image, hex]

/-- If the pipeline tail returns `True` with `keep_zarr = false`, the zarr
directory does not exist in the filesystem it returns. -/
theorem runPipeline_true_no_zarr (env : Env) (image_path zarr_dir ometiff_path : FPath)
    (bf ra : List String) (fs fs' : FS)
    (h : runPipeline env image_path zarr_dir ometiff_path bf ra false fs
      = Except.ok (true, fs')) :
    fs'.pathExists zarr_dir = false := by
  unfold runPipeline at h
  dsimp only at h
  rcases h1 : env.run (bf2rawCmd bf image_path zarr_dir) fs with ⟨o1, fs1⟩
  rw [h1] at h
  cases o1 with
  | execNotFound => simp at h
  | exitNonZero c => simp at h
  | exitZero =>
    dsimp only at h
    rcases h2 : env.run (raw2ometiffCmd ra zarr_dir ometiff_path) fs1 with ⟨o2, fs2⟩
    rw [h2] at h
    cases o2 with
    | execNotFound => simp at h
    | exitNonZero c => simp at h
    | exitZero =>
      simp at h
      by_cases hz : fs2.pathExists zarr_dir = true
      · rw [if_pos (by simp [hz])] at h
        rw [← h]
        exact pathExists_rmtree_self fs2 zarr_dir
      · rw [if_neg (by simpa using hz)] at h
        rw [← h]
        simpa using hz

/-- C1, amended part: when `keep_intermediate` is false and the item was not
skipped — the final output did not pre-exist, or `overwrite` was requested,
so that the item proceeded past the existence check — a `convert_image` run
that returns `True` leaves no intermediate zarr artifact behind. -/
theorem C1_cleanup_only_on_success (env : Env) (image_path output_dir : FPath)
    (bf2raw_args raw2ometiff_args : List String) (overwrite : Bool) (fs fs' : FS)
    (hns : fs.pathExists (ometiffPathOf output_dir image_path) = false ∨ overwrite = true)
    (hres : convert_image env image_path output_dir bf2raw_args raw2ometiff_args
        false overwrite fs = Except.ok (true, fs')) :
    fs'.pathExists (zarrPathOf output_dir image_path) = false := by
  by_cases hex : fs.pathExists (ometiffPathOf output_dir image_path) = true
  · have how : overwrite = true := by
      rcases hns with h | h
      · rw [h] at hex
        exact absurd hex (by simp)
      · exact h
    subst how
    unfold convert_image at hres
    dsimp only at hres
    rw [if_pos hex, if_pos rfl] at hres
    by_cases hrm : env.removeOk (ometiffPathOf output_dir image_path) = true
    · rw [if_pos hrm] at hres
      exact runPipeline_true_no_zarr env image_path _ _ bf2raw_args raw2ometiff_args
        (fs.removeFile (ometiffPathOf output_dir image_path)) fs' hres
    · rw [if_neg (by simpa using hrm)] at hres
      simp at hres
  · have hne : fs.pathExists (ometiffPathOf output_dir image_path) = false := by
      simpa using hex
    simp only [convert_image, hne, Bool.false_eq_true, if_false] at hres
    exact runPipeline_true_no_zarr env image_path _ _ bf2raw_args raw2ometiff_args fs fs' hres

theorem C1_cleanup_only_on_success_witness :
    FS.pathExists { files := [["out", "img.ome.tiff"]], dirs := [] }
      (zarrPathOf ["out"] ["img.tif"]) = false :=
  C1_cleanup_only_on_success envBothStagesOk ["img.tif"] ["out"] [] [] true
    ⟨[["out", "img.ome.tiff"]], []⟩ ⟨[["out", "img.ome.tiff"]], []⟩ (Or.inr rfl) rfl

/-- C1 counterexample: the first stage creates `out/img.zarr` and succeeds,
the second stage fails; `convert_image` (with `keep_zarr = false`) returns
`False` and the intermediate artifact is still on disk — cleanup did not run
on this exit path. -/
theorem C1_counterexample :
    convert_image envStage2Fails ["img.tif"] ["out"] [] [] false false ⟨[], []⟩
      = Except.ok (false, ⟨[], [["out", "img.zarr"]]⟩)
  ∧ FS.pathExists ⟨[], [["out", "img.zarr"]]⟩ (zarrPathOf ["out"] ["img.tif"]) = true :=
  ⟨rfl, rfl⟩

/-- C2 counterexample: when the stage-1 executable cannot be found, the
`FileNotFoundError` raised by `subprocess.run` is not caught — it escapes
`convert_image` instead of being folded into a failed (`False`) result. -/
theorem C2_counterexample :
    convert_image envNotFound ["img.tif"] ["out"] [] [] false false ⟨[], []⟩
      = Except.error (PyExn.fileNotFoundError ["bioformats2raw", "img.tif", "out/img.zarr"]) :=
  rfl

/-- C2, amended part: in both scripts, a child-process failure by nonzero
exit status or by signal termination (`CalledProcessError`) is folded into a
`False` stage result — for the `bioformats2raw` invocation, for the
`raw2ometiff` invocation, and for the `QuPath convert-ome` invocation of
`qupath_img2ome.py` — and in an environment where executables can always be
launched no exception escapes `convert_image`; a failed launch, by contrast,
escapes both runners as an uncaught `FileNotFoundError`. -/
theorem C2_nonzero_and_signal_handled (env : Env) (image_path output_dir : FPath)
    (bf2raw_args raw2ometiff_args : List String) (keep_zarr overwrite : Bool) (fs : FS)
    (hne : fs.pathExists (ometiffPathOf output_dir image_path) = false) :
    ((∀ (cmd : List String) (fs0 : FS), (env.run cmd fs0).1 ≠ RunOutcome.execNotFound) →
      ∃ b fs', convert_image env image_path output_dir bf2raw_args raw2ometiff_args
        keep_zarr overwrite fs = Except.ok (b, fs'))
  ∧ (∀ (c : Int) (fs1 : FS),
      env.run (bf2rawCmd bf2raw_args image_path (zarrPathOf output_dir image_path)) fs
          = (RunOutcome.exitNonZero c, fs1) →
      convert_image env image_path output_dir bf2raw_args raw2ometiff_args
        keep_zarr overwrite fs = Except.ok (false, fs1))
  ∧ (∀ (fs1 : FS) (c : Int) (fs2 : FS),
      env.run (bf2rawCmd bf2raw_args image_path (zarrPathOf output_dir image_path)) fs
          = (RunOutcome.exitZero, fs1) →
      env.run (raw2ometiffCmd raw2ometiff_args (zarrPathOf output_dir image_path)
          (ometiffPathOf output_dir image_path)) fs1
          = (RunOutcome.exitNonZero c, fs2) →
      convert_image env image_path output_dir bf2raw_args raw2ometiff_args
        keep_zarr overwrite fs = Except.ok (false, fs2))
  ∧ (∀ (fs1 : FS),
      env.run (bf2rawCmd bf2raw_args image_path (zarrPathOf output_dir image_path)) fs
          = (RunOutcome.execNotFound, fs1) →
      convert_image env image_path output_dir bf2raw_args raw2ometiff_args
          keep_zarr overwrite fs
        = Except.error (PyExn.fileNotFoundError
            (bf2rawCmd bf2raw_args image_path (zarrPathOf output_dir image_path))))
  ∧ (∀ (input output : String) (opts : QOpts) (fs0 : FS) (c : Int) (fs1 : FS),
      env.run (qupathCmd opts input output) fs0 = (RunOutcome.exitNonZero c, fs1) →
      qupath_convert_image env input output opts fs0 = Except.ok (false, fs1))
  ∧ (∀ (input output : String) (opts : QOpts) (fs0 fs1 : FS),
      env.run (qupathCmd opts input output) fs0 = (RunOutcome.execNotFound, fs1) →
      qupath_convert_image env input output opts fs0
        = Except.error (PyExn.fileNotFoundError (qupathCmd opts input output))) := by
  refine ⟨?_, ?_, ?_, ?_, ?_, ?_⟩
  · intro hlaunch
    simp only [convert_image, hne, Bool.false_eq_true, if_false]
    unfold runPipeline
    dsimp only
    rcases h1 : env.run (bf2rawCmd bf2raw_args image_path (zarrPathOf output_dir image_path))
      fs with ⟨o1, fs1⟩
    cases o1 with
    | execNotFound => exact absurd (by rw [h1]) (hlaunch _ fs)
    | exitNonZero c => exact ⟨false, fs1, rfl⟩
    | exitZero =>
      dsimp only
      rcases h2 : env.run (raw2ometiffCmd raw2ometiff_args
        (zarrPathOf output_dir image_path) (ometiffPathOf output_dir image_path))
        fs1 with ⟨o2, fs2⟩
      cases o2 with
      | execNotFound => exact absurd (by rw [h2]) (hlaunch _ fs1)
      | exitNonZero c => exact ⟨false, fs2, rfl⟩
      | exitZero => exact ⟨true, _, rfl⟩
  · intro c fs1 h1
    simp only [convert_image, hne, Bool.false_eq_true, if_false]
    unfold runPipeline
    dsimp only
    rw [h1]
  · intro fs1 c fs2 h1 h2
    simp only [convert_image, hne, Bool.false_eq_true, if_false]
    unfold runPipeline
    dsimp only
    rw [h1]
    dsimp only
    rw [h2]
  · intro fs1 h1
    simp only [convert_image, hne, Bool.false_eq_true, if_false]
    unfold runPipeline
    dsimp only
    rw [h1]
  · intro input output opts fs0 c fs1 h
    unfold qupath_convert_image
    dsimp only
    rw [h]
  · intro input output opts fs0 fs1 h
    unfold qupath_convert_image
    dsimp only
    rw [h]

theorem C2_nonzero_and_signal_handled_witness :
    convert_image envSignal ["img.tif"] ["out"] [] [] false false ⟨[], []⟩
      = Except.ok (false, ⟨[], []⟩)
  ∧ qupath_convert_image envSignal "in/x.tif" "out/x.ome.tiff" qoptsDefault ⟨[], []⟩
      = Except.ok (false, ⟨[], []⟩) :=
  ⟨(C2_nonzero_and_signal_handled envSignal ["img.tif"] ["out"] [] [] false false
      ⟨[], []⟩ rfl).2.1 (-9) ⟨[], []⟩ rfl,
    (C2_nonzero_and_signal_handled envSignal ["img.tif"] ["out"] [] [] false false
      ⟨[], []⟩ rfl).2.2.2.2.1 "in/x.tif" "out/x.ome.tiff" qoptsDefault
      ⟨[], []⟩ (-9) ⟨[], []⟩ rfl⟩

/-- C3, amended part: when discovery finds no images, `main` of `img2ome.py`
reports the "nothing to convert" condition before any per-item iteration and
exits with code 1 — but with the output directory already created, since
`os.makedirs(args.output_dir)` runs before discovery. -/
theorem C3_empty_discovery_exits_1 (env : Env) (input_path : FPath) (node : Node)
    (output_dir : FPath) (a : Img2omeArgs) (fs : FS)
    (h : find_images input_path node = []) :
    img2ome_main env input_path node output_dir a fs
      = Except.ok (1, fs.mkdirs output_dir) := by
  simp [img2ome_main, h]

theorem C3_empty_discovery_exits_1_witness :
    img2ome_main envAllFail ["in"] (Node.dir []) ["out"] argsDefault ⟨[], []⟩
      = Except.ok (1, FS.mkdirs ⟨[], []⟩ ["out"]) :=
  C3_empty_discovery_exits_1 envAllFail ["in"] (Node.dir []) ["out"] argsDefault
    ⟨[], []⟩ (by simp [find_images, walkChildren, fileNames])

/-- C3 counterexample: on an empty input directory the run does exit with
code 1 before any iteration, but the output directory `out` — absent
beforehand — has been created by the run, contradicting "no directories
created". -/
theorem C3_counterexample :
    img2ome_main envAllFail ["in"] (Node.dir []) ["out"] argsDefault ⟨[], []⟩
      = Except.ok (1, ⟨[], [["out"]]⟩)
  ∧ FS.pathExists ⟨[], []⟩ ["out"] = false
  ∧ FS.pathExists ⟨[], [["out"]]⟩ ["out"] = true := by
  have h : find_images ["in"] (Node.dir []) = [] := by simp [find_images, walkChildren, fileNames]
  exact ⟨by simp [img2ome_main, h, FS.mkdirs], rfl, rfl⟩

/-- C5: when the final output exists and `overwrite` is false,
`convert_image` returns `True` with the filesystem untouched, and the result
does not depend on the environment — no pipeline stage is invoked. -/
theorem C5_existing_output_skipped_as_success (env : Env) (image_path output_dir : FPath)
    (bf2raw_args raw2ometiff_args : List String) (keep_zarr : Bool) (fs : FS)
    (hex : fs.pathExists (ometiffPathOf output_dir image_path) = true) :
    convert_image env image_path output_dir bf2raw_args raw2ometiff_args keep_zarr false fs
      = Except.ok (true, fs) :=
  convert_image_skip env image_path output_dir bf2raw_args raw2ometiff_args keep_zarr fs hex

theorem C5_existing_output_skipped_as_success_witness :
    convert_image envAllFail ["img.tif"] ["out"] [] [] false false
        ⟨[["out", "img.ome.tiff"]], []⟩
      = Except.ok (true, ⟨[["out", "img.ome.tiff"]], []⟩) :=
  C5_existing_output_skipped_as_success envAllFail ["img.tif"] ["out"] [] [] false
    ⟨[["out", "img.ome.tiff"]], []⟩ rfl

/-- C6: when the final output exists and `overwrite` is true, a failing
deletion makes `convert_image` return `False` with no stage invoked (the
result does not depend on `env.run`), a successful deletion hands the
pipeline a filesystem from which the artifact was removed before any stage
runs, and the removed state no longer contains the artifact file. -/
theorem C6_overwrite_deletes_before_stages (env : Env) (image_path output_dir : FPath)
    (bf2raw_args raw2ometiff_args : List String) (keep_zarr : Bool) (fs : FS)
    (hex : fs.pathExists (ometiffPathOf output_dir image_path) = true) :
    (env.removeOk (ometiffPathOf output_dir image_path) = false →
      convert_image env image_path output_dir bf2raw_args raw2ometiff_args keep_zarr true fs
        = Except.ok (false, fs))
  ∧ (env.removeOk (ometiffPathOf output_dir image_path) = true →
      convert_image env image_path output_dir bf2raw_args raw2ometiff_args keep_zarr true fs
        = runPipeline env image_path (zarrPathOf output_dir image_path)
            (ometiffPathOf output_dir image_path) bf2raw_args raw2ometiff_args keep_zarr
            (fs.removeFile (ometiffPathOf output_dir image_path)))
  ∧ (fs.removeFile (ometiffPathOf output_dir image_path)).files.contains
        (ometiffPathOf output_dir image_path) = false := by
  refine ⟨fun hrm => ?_, fun hrm => ?_, ?_⟩
  · simp [convert_image, hex, hrm]
  · simp [convert_image, hex, hrm]
  · simp [FS.removeFile, List.mem_filter]

theorem C6_overwrite_deletes_before_stages_witness :
    convert_image envNoRemove ["img.tif"] ["out"] [] [] false true
        ⟨[["out", "img.ome.tiff"]], []⟩
      = Except.ok (false, ⟨[["out", "img.ome.tiff"]], []⟩) :=
  (C6_overwrite_deletes_before_stages envNoRemove ["img.tif"] ["out"] [] [] false
    ⟨[["out", "img.ome.tiff"]], []⟩ rfl).1 rfl

/-- The conversion loop yields one boolean per discovered image. -/
theorem runBatch_length (env : Env) (output_dir input_dir : FPath)
    (bf ra : List String) (kz ow : Bool) :
    ∀ (images : List FPath) (fs : FS) (results : List Bool) (fs' : FS),
      runBatch env output_dir input_dir bf ra kz ow images fs = Except.ok (results, fs') →
      results.length = images.length
  | [], fs, results, fs', h => by
      simp only [runBatch] at h
      simp only [Except.ok.injEq, Prod.mk.injEq] at h
      simp [← h.1]
  | img :: rest, fs, results, fs', h => by
      rw [runBatch] at h
      rcases hp : processItem env output_dir input_dir img bf ra kz ow fs with e | ⟨b, fs1⟩ <;>
        rw [hp] at h <;> dsimp only at h
      · exact Except.noConfusion h
      · rcases hr : runBatch env output_dir input_dir bf ra kz ow rest fs1
          with e2 | ⟨bs, fs2⟩ <;> rw [hr] at h <;> dsimp only at h
        · exact Except.noConfusion h
        · simp only [Except.ok.injEq, Prod.mk.injEq] at h
          rw [← h.1]
          simp [runBatch_length env output_dir input_dir bf ra kz ow rest fs1 bs fs2 hr]

/-- C4, amended part (the `img2ome.py` orchestrator): on a run that discovers
at least one image and whose conversion loop completes without an uncaught
exception, the process exits `0` iff every discovered image converted
successfully, and exits `1` iff at least one item failed. -/
theorem C4_exit_code_iff (env : Env) (input_path : FPath) (node : Node)
    (output_dir : FPath) (a : Img2omeArgs) (fs : FS) (results : List Bool) (fs' : FS)
    (hne : find_images input_path node ≠ [])
    (hrun : runBatch env output_dir (inputDirOf input_path node)
        (build_bf2raw_args a) (build_raw2ometiff_args a) a.keep_zarr a.overwrite
        (find_images input_path node) (fs.mkdirs output_dir) = Except.ok (results, fs')) :
    (img2ome_main env input_path node output_dir a fs = Except.ok (0, fs')
        ↔ ∀ b ∈ results, b = true)
  ∧ (img2ome_main env input_path node output_dir a fs = Except.ok (1, fs')
        ↔ ∃ b ∈ results, b = false) := by
  have hlen : results.length = (find_images input_path node).length :=
    runBatch_length env output_dir (inputDirOf input_path node)
      (build_bf2raw_args a) (build_raw2ometiff_args a) a.keep_zarr a.overwrite
      (find_images input_path node) (fs.mkdirs output_dir) results fs' hrun
  have hle : results.count true ≤ results.length := List.count_le_length true results
  have hall : results.count true = results.length ↔ ∀ b ∈ results, b = true := by
    rw [List.count_eq_length]
    exact ⟨fun h b hb => (h b hb).symm, fun h b hb => (h b hb).symm⟩
  have hsome : results.count true < results.length ↔ ∃ b ∈ results, b = false := by
    constructor
    · intro hlt
      by_contra hcon
      push_neg at hcon
      have : ∀ b ∈ results, b = true := by
        intro b hb
        cases b
        · exact absurd rfl (hcon false hb)
        · rfl
      exact Nat.lt_irrefl _ (hall.mpr this ▸ hlt)
    · rintro ⟨b, hb, rfl⟩ 
      rcases Nat.lt_or_ge (results.count true) results.length with hlt | hge
      · exact hlt
      · have heq := Nat.le_antisymm hle hge
        have := hall.mp heq false hb
        exact absurd this (by simp)
  unfold img2ome_main
  rw [if_neg (by simpa [List.isEmpty_iff] using hne)]
  rw [hrun]
  dsimp only
  rw [← hlen]
  by_cases hx : results.count true < results.length
  · rw [if_pos hx]
    constructor
    · exact iff_of_false (by simp)
        (fun h => Nat.lt_irrefl _ (hall.mpr h ▸ hx))
    · exact iff_of_true rfl (hsome.mp hx)
  · have heq : results.count true = results.length :=
      Nat.le_antisymm hle (Nat.not_lt.mp hx)
    rw [if_neg hx]
    constructor
    · exact iff_of_true rfl (hall.mp heq)
    · refine iff_of_false (by simp) ?_
      rintro ⟨b, hb, rfl⟩
      exact absurd (hall.mp heq false hb) (by simp)

theorem C4_exit_code_iff_witness :
    img2ome_main envAllFail ["in"] (Node.dir [FsTree.file "x.tif"]) ["out"] argsDefault
        ⟨[], []⟩
      = Except.ok (1, ⟨[], [["out"]]⟩) := by
  have hfi : find_images ["in"] (Node.dir [FsTree.file "x.tif"]) = [["in", "x.tif"]] := by
    simp only [find_images, walkChildren, fileNames]
    decide
  exact ((C4_exit_code_iff envAllFail ["in"] (Node.dir [FsTree.file "x.tif"]) ["out"]
      argsDefault ⟨[], []⟩ [false] ⟨[], [["out"]]⟩
      (by rw [hfi]; exact (by decide))
      (by rw [hfi]; rfl)).2).mpr ⟨false, by simp, rfl⟩

/-- C4 counterexample: in `qupath_img2ome.py` (also cited by the claim), a
directory run in which the only discovered image fails to convert still
exits with code `0`: `process_directory` reports 0 of 1 successes, `main`
ignores it and falls through. -/
theorem C4_counterexample :
    qupath_process_directory envAllFail ["in"] [FsTree.file "x.tif"] ["out"] "tiff"
        qupath_default_extensions qoptsDefault ⟨[], []⟩
      = Except.ok (0, 1, ⟨[], [["out"]]⟩)
  ∧ qupath_main_dir envAllFail ["in"] [FsTree.file "x.tif"] ["out"] "tiff"
        qupath_default_extensions qoptsDefault ⟨[], []⟩
      = Except.ok (0, ⟨[], [["out"]]⟩) :=
  ⟨rfl, rfl⟩

/-- A directory that the zarr path is not a prefix of survives the pipeline
tail, in any environment whose tools never remove directories. -/
theorem runPipeline_keeps_dir (env : Env) (image_path zarr_dir ometiff_path : FPath)
    (bf ra : List String) (kz : Bool) (fs : FS) (b : Bool) (fs' : FS) (d : FPath)
    (hpres : EnvKeepsDirs env) (hd : d ∈ fs.dirs)
    (hnp : zarr_dir.isPrefixOf d = false)
    (h : runPipeline env image_path zarr_dir ometiff_path bf ra kz fs = Except.ok (b, fs')) :
    d ∈ fs'.dirs := by
  unfold runPipeline at h
  dsimp only at h
  rcases h1 : env.run (bf2rawCmd bf image_path zarr_dir) fs with ⟨o1, fs1⟩
  rw [h1] at h
  have hd1 : d ∈ fs1.dirs := by
    have hh := hpres (bf2rawCmd bf image_path zarr_dir) fs d hd
    rw [h1] at hh
    exact hh
  cases o1 with
  | execNotFound => exact Except.noConfusion h
  | exitNonZero c =>
    dsimp only at h
    simp only [Except.ok.injEq, Prod.mk.injEq] at h
    rw [← h.2]
    exact hd1
  | exitZero =>
    dsimp only at h
    rcases h2 : env.run (raw2ometiffCmd ra zarr_dir ometiff_path) fs1 with ⟨o2, fs2⟩
    rw [h2] at h
    have hd2 : d ∈ fs2.dirs := by
      have hh := hpres (raw2ometiffCmd ra zarr_dir ometiff_path) fs1 d hd1
      rw [h2] at hh
      exact hh
    cases o2 with
    | execNotFound => exact Except.noConfusion h
    | exitNonZero c =>
      dsimp only at h
      simp only [Except.ok.injEq, Prod.mk.injEq] at h
      rw [← h.2]
      exact hd2
    | exitZero =>
      dsimp only at h
      simp only [Except.ok.injEq, Prod.mk.injEq] at h
      rw [← h.2]
      by_cases hz : (!kz && fs2.pathExists zarr_dir) = true
      · rw [if_pos hz]
        simp only [FS.rmtree]
        exact List.mem_filter.mpr ⟨hd2, by simp [hnp]⟩
      · rw [if_neg (by simpa using hz)]
        exact hd2

/-- The same preservation through the whole of `convert_image`. -/
theorem convert_image_keeps_dir (env : Env) (image_path output_dir : FPath)
    (bf ra : List String) (kz ow : Bool) (fs : FS) (b : Bool) (fs' : FS) (d : FPath)
    (hpres : EnvKeepsDirs env) (hd : d ∈ fs.dirs)
    (hnp : (zarrPathOf output_dir image_path).isPrefixOf d = false)
    (h : convert_image env image_path output_dir bf ra kz ow fs = Except.ok (b, fs')) :
    d ∈ fs'.dirs := by
  unfold convert_image at h
  dsimp only at h
  by_cases hex : fs.pathExists (ometiffPathOf output_dir image_path) = true
  · rw [if_pos hex] at h
    cases ow with
    | false =>
      simp only [Bool.false_eq_true, if_false, Except.ok.injEq, Prod.mk.injEq] at h
      rw [← h.2]
      exact hd
    | true =>
      rw [if_pos rfl] at h
      by_cases hrm : env.removeOk (ometiffPathOf output_dir image_path) = true
      · rw [if_pos hrm] at h
        exact runPipeline_keeps_dir env image_path _ _ bf ra kz
          (fs.removeFile (ometiffPathOf output_dir image_path)) b fs' d hpres hd hnp h
      · rw [if_neg (by simpa using hrm)] at h
        simp only [Except.ok.injEq, Prod.mk.injEq] at h
        rw [← h.2]
        exact hd
  · rw [if_neg (by simpa using hex)] at h
    exact runPipeline_keeps_dir env image_path _ _ bf ra kz fs b fs' d hpres hd hnp h

/-- C8: for a discovered input `input_dir/sub.../name`, the final artifact
path is `output_dir/sub.../<stem>.ome.tiff`; the loop body is the conversion
run on exactly that output subdirectory after creating it; and the
subdirectory exists after the item completes, whether it succeeded or
failed (given tools that never remove directories). -/
theorem C8_output_mapping (env : Env) (input_dir sub : FPath) (nm : String)
    (output_dir : FPath) (bf ra : List String) (kz ow : Bool) (fs : FS) (b : Bool) (fs' : FS)
    (hpres : EnvKeepsDirs env)
    (hres : processItem env output_dir input_dir (input_dir ++ sub ++ [nm]) bf ra kz ow fs
      = Except.ok (b, fs')) :
    ometiffPathOf (output_dir ++ sub) (input_dir ++ sub ++ [nm])
        = output_dir ++ sub ++ [(splitext nm).1 ++ ".ome.tiff"]
  ∧ processItem env output_dir input_dir (input_dir ++ sub ++ [nm]) bf ra kz ow fs
      = convert_image env (input_dir ++ sub ++ [nm]) (output_dir ++ sub) bf ra kz ow
          (fs.mkdirs (output_dir ++ sub))
  ∧ fs'.pathExists (output_dir ++ sub) = true := by
  have hrel : relpath (input_dir ++ sub ++ [nm]) input_dir = sub ++ [nm] := by
    rw [relpath, List.append_assoc]
    exact List.drop_left input_dir (sub ++ [nm])
  have hlast : lastComp (input_dir ++ sub ++ [nm]) = nm := by
    rw [lastComp, List.append_assoc]
    simp
  have hpi : processItem env output_dir input_dir (input_dir ++ sub ++ [nm]) bf ra kz ow fs
      = convert_image env (input_dir ++ sub ++ [nm]) (output_dir ++ sub) bf ra kz ow
          (fs.mkdirs (output_dir ++ sub)) := by
    unfold processItem
    dsimp only
    rw [hrel, List.dropLast_concat]
  refine ⟨?_, hpi, ?_⟩
  · rw [ometiffPathOf, hlast, List.append_assoc]
  · rw [hpi] at hres
    have hd : (output_dir ++ sub) ∈ (fs.mkdirs (output_dir ++ sub)).dirs :=
      mkdirs_mem_dirs fs (output_dir ++ sub)
    have hnp : (zarrPathOf (output_dir ++ sub) (input_dir ++ sub ++ [nm])).isPrefixOf
        (output_dir ++ sub) = false :=
      isPrefixOf_concat_self (output_dir ++ sub) _
    exact pathExists_of_mem_dirs fs' (output_dir ++ sub)
      (convert_image_keeps_dir env (input_dir ++ sub ++ [nm]) (output_dir ++ sub)
        bf ra kz ow (fs.mkdirs (output_dir ++ sub)) b fs' (output_dir ++ sub)
        hpres hd hnp hres)

theorem C8_output_mapping_witness :
    ometiffPathOf (["out"] ++ ["a"]) (["in"] ++ ["a"] ++ ["img.tif"])
        = ["out"] ++ ["a"] ++ [(splitext "img.tif").1 ++ ".ome.tiff"]
  ∧ processItem envAllFail ["out"] ["in"] (["in"] ++ ["a"] ++ ["img.tif"]) [] [] false false
        ⟨[], []⟩
      = convert_image envAllFail (["in"] ++ ["a"] ++ ["img.tif"]) (["out"] ++ ["a"])
          [] [] false false (FS.mkdirs ⟨[], []⟩ (["out"] ++ ["a"]))
  ∧ FS.pathExists ⟨[], [["out", "a"]]⟩ (["out"] ++ ["a"]) = true :=
  C8_output_mapping envAllFail ["in"] ["a"] "img.tif" ["out"] [] [] false false
    ⟨[], []⟩ false ⟨[], [["out", "a"]]⟩ (fun _ _ _ hd => hd) rfl

/-- C9: a second `overwrite=false` run over a batch whose final artifacts
(and output subdirectories) all already exist — the state a fully successful
first run leaves behind — reports every item as a success via the skip path
and leaves the filesystem exactly as it was; the result does not depend on
the environment, so no pipeline stage runs. -/
theorem C9_second_run_all_skip (env : Env) (output_dir input_dir : FPath)
    (bf ra : List String) (kz : Bool) (images : List FPath) (fs : FS)
    (h : ∀ img ∈ images,
        fs.pathExists (ometiffPathOf (output_dir ++ (relpath img input_dir).dropLast) img)
            = true
      ∧ fs.dirs.contains (output_dir ++ (relpath img input_dir).dropLast) = true) :
    runBatch env output_dir input_dir bf ra kz false images fs
      = Except.ok (List.replicate images.length true, fs) := by
  induction images with
  | nil => simp [runBatch]
  | cons img rest ih =>
    obtain ⟨h1, h2⟩ := h img (List.mem_cons_self img rest)
    rw [runBatch]
    have hpi : processItem env output_dir input_dir img bf ra kz false fs
        = Except.ok (true, fs) := by
      unfold processItem
      dsimp only
      rw [mkdirs_eq_of_contains fs _ h2]
      exact convert_image_skip env img _ bf ra kz fs h1
    rw [hpi]
    dsimp only
    rw [ih (fun i hi => h i (List.mem_cons_of_mem img hi))]
    simp [List.replicate_succ]

theorem C9_second_run_all_skip_witness :
    runBatch envAllFail ["out"] ["in"] [] [] false false [["in", "a", "x.tif"]]
        ⟨[["out", "a", "x.ome.tiff"]], [["out"], ["out", "a"]]⟩
      = Except.ok (List.replicate 1 true,
          ⟨[["out", "a", "x.ome.tiff"]], [["out"], ["out", "a"]]⟩) :=
  C9_second_run_all_skip envAllFail ["out"] ["in"] [] [] false [["in", "a", "x.tif"]]
    ⟨[["out", "a", "x.ome.tiff"]], [["out"], ["out", "a"]]⟩
    (by
      intro img hi
      rw [List.mem_singleton] at hi
      subst hi
      exact ⟨rfl, rfl⟩)

theorem isInfix_append_left {α : Type} {m l : List α} (k : List α) (h : m <:+: l) :
    m <:+: k ++ l := by
  obtain ⟨p, s, rfl⟩ := h
  exact ⟨k ++ p, s, by simp⟩

theorem isInfix_append_right {α : Type} {m l : List α} (h : m <:+: l) (k : List α) :
    m <:+: l ++ k := by
  obtain ⟨p, s, rfl⟩ := h
  exact ⟨p, s ++ k, by simp⟩

theorem intArg_of_ne_zero (flag : String) (n : Int) (hn : n ≠ 0) :
    intArg flag (some n) = [flag, toString n] := by
  simp [intArg, hn]

/-- C10: an integer option explicitly set to `0` is dropped from the
constructed tool argument list exactly as if it had not been given (Python
truthiness of `0`), while any nonzero value is forwarded as a
`flag value` pair somewhere in the list. -/
theorem C10_zero_numeric_options_omitted (a : Img2omeArgs) (n : Int) (hn : n ≠ 0) :
    build_bf2raw_args { a with tile_width := some 0 }
        = build_bf2raw_args { a with tile_width := none }
  ∧ build_bf2raw_args { a with tile_height := some 0 }
        = build_bf2raw_args { a with tile_height := none }
  ∧ build_bf2raw_args { a with resolutions := some 0 }
        = build_bf2raw_args { a with resolutions := none }
  ∧ build_bf2raw_args { a with max_workers := some 0 }
        = build_bf2raw_args { a with max_workers := none }
  ∧ build_raw2ometiff_args { a with ometiff_quality := some 0 }
        = build_raw2ometiff_args { a with ometiff_quality := none }
  ∧ ["--tile-width", toString n] <:+: build_bf2raw_args { a with tile_width := some n }
  ∧ ["--resolutions", toString n] <:+: build_bf2raw_args { a with resolutions := some n }
  ∧ ["--quality", toString n]
      <:+: build_raw2ometiff_args { a with ometiff_quality := some n } := by
  refine ⟨?_, ?_, ?_, ?_, ?_, ?_, ?_, ?_⟩
  · simp [build_bf2raw_args, intArg]
  · simp [build_bf2raw_args, intArg]
  · simp [build_bf2raw_args, intArg]
  · simp [build_bf2raw_args, intArg]
  · simp [build_raw2ometiff_args, intArg]
  · unfold build_bf2raw_args
    dsimp only
    iterate 10 refine isInfix_append_right ?_ _
    refine isInfix_append_left _ ?_
    rw [intArg_of_ne_zero "--tile-width" n hn]
  · unfold build_bf2raw_args
    dsimp only
    iterate 8 refine isInfix_append_right ?_ _
    refine isInfix_append_left _ ?_
    rw [intArg_of_ne_zero "--resolutions" n hn]
  · unfold build_raw2ometiff_args
    dsimp only
    iterate 4 refine isInfix_append_right ?_ _
    refine isInfix_append_left _ ?_
    rw [intArg_of_ne_zero "--quality" n hn]

theorem C10_zero_numeric_options_omitted_witness :
    build_bf2raw_args { argsDefault with resolutions := some 0 }
        = build_bf2raw_args { argsDefault with resolutions := none }
  ∧ ["--resolutions", toString (5 : Int)]
      <:+: build_bf2raw_args { argsDefault with resolutions := some 5 } :=
  ⟨(C10_zero_numeric_options_omitted argsDefault 5 (by decide)).2.2.1,
    (C10_zero_numeric_options_omitted argsDefault 5 (by decide)).2.2.2.2.2.2.1⟩

theorem fileNames_nil : fileNames [] = [] := rfl

theorem fileNames_cons_file (m : String) (rest : List FsTree) :
    fileNames (FsTree.file m :: rest) = m :: fileNames rest := rfl

theorem fileNames_cons_dir (n : String) (cs rest : List FsTree) :
    fileNames (FsTree.dir n cs :: rest) = fileNames rest := rfl

theorem lastComp_singleton (m : String) : lastComp [m] = m := rfl

theorem lastComp_cons (a : String) (r : FPath) (h : r ≠ []) :
    lastComp (a :: r) = lastComp r := by
  cases r with
  | nil => exact absurd rfl h
  | cons b l => rfl

theorem filesUnder_ne_nil : ∀ (ts : List FsTree), ∀ r ∈ filesUnder ts, r ≠ []
  | [] => by simp [filesUnder]
  | FsTree.file m :: rest => by
      intro r hr
      rw [filesUnder] at hr
      rcases List.mem_cons.mp hr with h | h
      · subst h
        simp
      · exact filesUnder_ne_nil rest r h
  | FsTree.dir n cs :: rest => by
      intro r hr
      rw [filesUnder] at hr
      rcases List.mem_append.mp hr with h | h
      · rcases List.mem_map.mp h with ⟨r', _, rfl⟩
        simp
      · exact filesUnder_ne_nil rest r h

theorem singleton_mem_filesUnder (m : String) :
    ∀ (ts : List FsTree), ([m] ∈ filesUnder ts ↔ m ∈ fileNames ts)
  | [] => by simp [filesUnder, fileNames]
  | FsTree.file m' :: rest => by
      rw [filesUnder, fileNames_cons_file]
      simp only [List.mem_cons]
      rw [singleton_mem_filesUnder m rest]
      constructor
      · rintro (h | h)
        · left
          injection h
        · right
          exact h
      · rintro (h | h)
        · left
          rw [h]
        · right
          exact h
  | FsTree.dir n cs :: rest => by
      rw [filesUnder, fileNames_cons_dir]
      rw [← singleton_mem_filesUnder m rest]
      simp only [List.mem_append, List.mem_map]
      constructor
      · rintro (⟨r', hr', heq⟩ | h)
        · exfalso
          have h2 : r' = [] := by injection heq
          exact filesUnder_ne_nil cs r' hr' h2
        · exact h
      · intro h
        exact Or.inr h

theorem mem_walkChildren (q : FPath) :
    ∀ (pre : FPath) (ts : List FsTree),
      (q ∈ walkChildren pre ts
        ↔ ∃ r ∈ filesUnder ts,
            2 ≤ r.length ∧ q = pre ++ r ∧ isImageFile (lastComp r) = true)
  | pre, [] => by simp [walkChildren, filesUnder]
  | pre, FsTree.file m :: rest => by
      rw [walkChildren, filesUnder]
      rw [mem_walkChildren q pre rest]
      constructor
      · rintro ⟨r, hr, hlen, rfl, him⟩
        exact ⟨r, List.mem_cons_of_mem _ hr, hlen, rfl, him⟩
      · rintro ⟨r, hr, hlen, rfl, him⟩
        rcases List.mem_cons.mp hr with h | h
        · subst h
          simp at hlen
        · exact ⟨r, h, hlen, rfl, him⟩
  | pre, FsTree.dir n cs :: rest => by
      rw [walkChildren, filesUnder]
      simp only [List.mem_append]
      rw [mem_walkChildren q (pre ++ [n]) cs, mem_walkChildren q pre rest]
      constructor
      · rintro ((hq | ⟨r', hr', hlen, rfl, him⟩) | ⟨r, hr, hlen, rfl, him⟩)
        · rcases List.mem_map.mp hq with ⟨m, hm, rfl⟩
          rcases List.mem_filter.mp hm with ⟨hmem, him⟩
          refine ⟨[n, m], Or.inl (List.mem_map.mpr
            ⟨[m], (singleton_mem_filesUnder m cs).mpr hmem, rfl⟩), by simp, by simp, ?_⟩
          exact him
        · have hne : r' ≠ [] := filesUnder_ne_nil cs r' hr'
          refine ⟨n :: r', Or.inl (List.mem_map.mpr ⟨r', hr', rfl⟩), by simp; omega,
            by simp, ?_⟩
          rw [lastComp_cons n r' hne]
          exact him
        · exact ⟨r, Or.inr hr, hlen, rfl, him⟩
      · rintro ⟨r, hmem, hlen, rfl, him⟩
        rcases hmem with hmap | hrest
        · rcases List.mem_map.mp hmap with ⟨r', hr', rfl⟩
          have hne : r' ≠ [] := filesUnder_ne_nil cs r' hr'
          rw [lastComp_cons n r' hne] at him
          rcases Nat.lt_or_ge r'.length 2 with h2 | h2
          · have h1 : r'.length = 1 := by
              have := List.length_pos.mpr hne
              omega
            rcases List.length_eq_one.mp h1 with ⟨m, rfl⟩
            left
            left
            refine List.mem_map.mpr ⟨m, List.mem_filter.mpr
              ⟨(singleton_mem_filesUnder m cs).mp hr', him⟩, ?_⟩
            simp
          · left
            right
            exact ⟨r', hr', h2, by simp, him⟩
        · right
          exact ⟨r, hrest, hlen, rfl, him⟩

/-- C7, amended part: `find_images` of `img2ome.py` on a directory returns
exactly the files anywhere beneath the root whose extension, lower-cased, is
in the recognized set — including the claim's example directory, with batch
total 2. -/
theorem C7_find_images_exact :
    (∀ (p : FPath) (cs : List FsTree) (q : FPath),
      q ∈ find_images p (Node.dir cs)
        ↔ ∃ r ∈ filesUnder cs, q = p ++ r ∧ isImageFile (lastComp r) = true)
  ∧ find_images ["in"]
        (Node.dir [FsTree.file "x.tif", FsTree.file "y.png", FsTree.file "z.txt"])
      = [["in", "x.tif"], ["in", "y.png"]]
  ∧ (find_images ["in"]
        (Node.dir [FsTree.file "x.tif", FsTree.file "y.png", FsTree.file "z.txt"])).length
      = 2 := by
  refine ⟨?_, ?_, ?_⟩
  · intro p cs q
    rw [find_images]
    simp only [List.mem_append]
    rw [mem_walkChildren q p cs]
    constructor
    · rintro (hq | ⟨r, hr, _, rfl, him⟩)
      · rcases List.mem_map.mp hq with ⟨m, hm, rfl⟩
        rcases List.mem_filter.mp hm with ⟨hmem, him⟩
        exact ⟨[m], (singleton_mem_filesUnder m cs).mpr hmem, rfl, him⟩
      · exact ⟨r, hr, rfl, him⟩
    · rintro ⟨r, hr, rfl, him⟩
      have hne : r ≠ [] := filesUnder_ne_nil cs r hr
      rcases Nat.lt_or_ge r.length 2 with h2 | h2
      · have h1 : r.length = 1 := by
          have := List.length_pos.mpr hne
          omega
        rcases List.length_eq_one.mp h1 with ⟨m, rfl⟩
        left
        exact List.mem_map.mpr ⟨m, List.mem_filter.mpr
          ⟨(singleton_mem_filesUnder m cs).mp hr, him⟩, rfl⟩
      · right
        exact ⟨r, hr, h2, rfl, him⟩
  · simp only [find_images, walkChildren, fileNames]
    decide
  · simp only [find_images, walkChildren, fileNames]
    decide

/-- C7 counterexample: the directory-discovery of `qupath_img2ome.py` (also
cited by the claim) is a non-recursive, case-sensitive glob: on a root whose
only image sits in a subdirectory it returns nothing, although that file is
anywhere-beneath-the-root and its extension is recognized. -/
theorem C7_counterexample :
    qupathGlobFiles ["in"] qupath_default_extensions [FsTree.dir "sub" [FsTree.file "x.tif"]]
      = []
  ∧ filesUnder [FsTree.dir "sub" [FsTree.file "x.tif"]] = [["sub", "x.tif"]]
  ∧ isImageFile "x.tif" = true
  ∧ strEndsWith "x.tif" ".tif" = true := by
  refine ⟨rfl, ?_, rfl, rfl⟩
  simp only [filesUnder]
  decide
